import Mathlib

/-!
A shallow embedding of `src/price_update.rs` from the
`pyth-solana-receiver-sdk` repository, together with proofs about the
behaviour of its price-extraction and feed-id-parsing functions.

Modelling conventions:
* Rust `u8`/`u64` become `Nat`; `i32`/`i64` become `Int`.  Bounds such as
  `i64::MAX` appear explicitly where the code's arithmetic depends on them.
* Fallible Rust functions returning `Result<T, GetPriceError>` become
  `Except GetPriceError T`.  A function that can panic (through
  `.unwrap()`, out-of-bounds slicing, or `copy_from_slice` length
  mismatch) is wrapped in `Option`, where `none` models the panic.
* Rust `&str` becomes `List Char` (a sequence of Unicode scalar values,
  exactly what Rust guarantees for `str`).  `str::len` is the UTF-8 byte
  length, and byte-slicing `&input[2..]` panics when byte offset 2 is not
  a character boundary; both are modelled faithfully below.
-/

set_option autoImplicit false

/-- `i64::MIN` as an integer. -/
def i64Min : Int := -(2 ^ 63)

/-- `i64::MAX` as an integer. -/
def i64Max : Int := 2 ^ 63 - 1

/-- `u64::MAX` as a natural number. -/
def u64Max : Nat := 2 ^ 64 - 1

/-- Model of Rust `i64::saturating_add`: ordinary integer addition clamped
to the representable `i64` range. -/
def i64SaturatingAdd (a b : Int) : Int :=
  if a + b < i64Min then i64Min
  else if a + b > i64Max then i64Max
  else a + b

/-- Model of the `u64 -> i64` conversion `maximum_age.try_into()`:
succeeds exactly when the value fits in `i64`, i.e. is at most
`i64::MAX`; otherwise Rust's `TryInto` returns an error (which the source
immediately `.unwrap()`s, panicking). -/
def u64TryIntoI64 (u : Nat) : Option Int :=
  if (u : Int) ≤ i64Max then some (u : Int) else none

/-- Modelled from the spec: the error taxonomy of the crate's
`GetPriceError` enum (its defining file `src/error.rs` is not part of the
provided sources; the five variants are exactly those referenced by
`src/price_update.rs` and listed in the spec's error table). -/
inductive GetPriceError where
  | InsufficientVerificationLevel
  | MismatchedFeedId
  | PriceTooOld
  | FeedIdMustBe32Bytes
  | FeedIdNonHexCharacter
deriving DecidableEq, Repr

/-- `FeedId` is `[u8; 32]` in the source: a list of byte values.  The
32-length and byte-bound invariants are stated explicitly in theorems
where they matter. -/
abbrev FeedId := List Nat

/-- Solana `Pubkey`, opaque to this crate (32 bytes, only stored). -/
abbrev Pubkey := List Nat

/-- The fragment of Solana's `Clock` sysvar used by the source: only the
`unix_timestamp : i64` field is read. -/
structure Clock where
  unix_timestamp : Int
deriving DecidableEq, Repr

/-- `VerificationLevel` from `src/price_update.rs`: how much a price
update has been verified (`Partial` carries `num_signatures : u8`). -/
inductive VerificationLevel where
  | Partial (num_signatures : Nat)
  | Full
deriving DecidableEq, Repr

/-- `VerificationLevel::gte` from `src/price_update.rs`: `Full` is
greater than everything; `Partial` is never `>= Full`; two `Partial`s
compare by `num_signatures`. -/
def VerificationLevel.gte (self : VerificationLevel) (other : VerificationLevel) : Bool :=
  match self with
  | VerificationLevel.Full => true
  | VerificationLevel.Partial num_signatures =>
    match other with
    | VerificationLevel.Full => false
    | VerificationLevel.Partial other_num_signatures =>
      decide (num_signatures ≥ other_num_signatures)

/-- `PriceFeedMessage` from `src/price_update.rs`. -/
structure PriceFeedMessage where
  feed_id : FeedId
  price : Int
  conf : Nat
  exponent : Int
  publish_time : Int
  prev_publish_time : Int
  ema_price : Int
  ema_conf : Nat
deriving DecidableEq, Repr

/-- `PriceUpdateV2` from `src/price_update.rs`: the stored price update
account. -/
structure PriceUpdateV2 where
  write_authority : Pubkey
  verification_level : VerificationLevel
  price_message : PriceFeedMessage
  posted_slot : Nat
deriving DecidableEq, Repr

/-- `Price` from `src/price_update.rs`: the projection returned to
callers. -/
structure Price where
  price : Int
  conf : Nat
  exponent : Int
  publish_time : Int
deriving DecidableEq, Repr

/-- `PriceUpdateV2::get_price_unchecked`.  The `check!` macro (from the
crate root, modelled from the spec's short-circuit policy) returns the
given error when its condition is false, so the function fails with
`MismatchedFeedId` unless the stored feed id equals the requested one,
and otherwise copies the four price fields. -/
def PriceUpdateV2.get_price_unchecked (self : PriceUpdateV2) (feed_id : FeedId) :
    Except GetPriceError Price :=
  if self.price_message.feed_id = feed_id then
    Except.ok ⟨self.price_message.price, self.price_message.conf,
      self.price_message.exponent, self.price_message.publish_time⟩
  else
    Except.error GetPriceError.MismatchedFeedId

/-- `PriceUpdateV2::get_price_no_older_than_with_custom_verification_level`.
Checks, in order: the verification level (`InsufficientVerificationLevel`),
the feed id (via `get_price_unchecked`, propagating `MismatchedFeedId`),
then freshness: `publish_time.saturating_add(maximum_age.try_into().unwrap())
>= clock.unix_timestamp`, failing with `PriceTooOld`.  The `.unwrap()`
panics (modelled as `none`) when `maximum_age` exceeds `i64::MAX`. -/
def PriceUpdateV2.get_price_no_older_than_with_custom_verification_level
    (self : PriceUpdateV2) (clock : Clock) (maximum_age : Nat) (feed_id : FeedId)
    (verification_level : VerificationLevel) : Option (Except GetPriceError Price) :=
  if self.verification_level.gte verification_level then
    match self.get_price_unchecked feed_id with
    | Except.error e => some (Except.error e)
    | Except.ok price =>
      match u64TryIntoI64 maximum_age with
      | none => none
      | some age =>
        if i64SaturatingAdd price.publish_time age ≥ clock.unix_timestamp then
          some (Except.ok price)
        else
          some (Except.error GetPriceError.PriceTooOld)
  else
    some (Except.error GetPriceError.InsufficientVerificationLevel)

/-- `PriceUpdateV2::get_price_no_older_than`: the `Full`-level wrapper. -/
def PriceUpdateV2.get_price_no_older_than (self : PriceUpdateV2) (clock : Clock)
    (maximum_age : Nat) (feed_id : FeedId) : Option (Except GetPriceError Price) :=
  self.get_price_no_older_than_with_custom_verification_level
    clock maximum_age feed_id VerificationLevel.Full

/-- The number of a Unicode scalar value as a natural number. -/
def charCode (c : Char) : Nat := c.toNat

/-- The UTF-8 encoding of one character, as byte values (Rust `str` is
UTF-8, and `str::len` / slicing / `hex::decode` all operate on these
bytes). -/
def charBytes (c : Char) : List Nat :=
  if charCode c < 0x80 then [charCode c]
  else if charCode c < 0x800 then
    [0xC0 + charCode c / 0x40, 0x80 + charCode c % 0x40]
  else if charCode c < 0x10000 then
    [0xE0 + charCode c / 0x1000, 0x80 + charCode c / 0x40 % 0x40, 0x80 + charCode c % 0x40]
  else
    [0xF0 + charCode c / 0x40000, 0x80 + charCode c / 0x1000 % 0x40,
      0x80 + charCode c / 0x40 % 0x40, 0x80 + charCode c % 0x40]

/-- The UTF-8 byte length of one character. -/
def charLen (c : Char) : Nat := (charBytes c).length

/-- The UTF-8 bytes of a string. -/
def strBytes (s : List Char) : List Nat := (s.map charBytes).join

/-- Rust `str::len`: the UTF-8 byte length of a string. -/
def strLen (s : List Char) : Nat := (strBytes s).length

/-- Model of the Rust byte slice `&input[2..]` on a `str`: returns the
characters after byte offset 2 when that offset is a character boundary
(two one-byte characters, or one two-byte character); otherwise the
indexing panics (`none`), as does slicing a string shorter than 2
bytes. -/
def sliceFrom2 : List Char → Option (List Char)
  | [] => none
  | c :: rest =>
    if charLen c = 1 then
      match rest with
      | [] => none
      | c2 :: rest2 => if charLen c2 = 1 then some rest2 else none
    else if charLen c = 2 then some rest
    else none

/-- The value of one byte read as a hexadecimal digit (`0-9`, `a-f`,
`A-F`), as in the `hex` crate's decoder. -/
def hexDigitValue (b : Nat) : Option Nat :=
  if 48 ≤ b ∧ b ≤ 57 then some (b - 48)
  else if 97 ≤ b ∧ b ≤ 102 then some (b - 87)
  else if 65 ≤ b ∧ b ≤ 70 then some (b - 55)
  else none

/-- Model of `hex::decode` on a byte sequence: decodes consecutive pairs
of hex digits, failing on odd length or on any non-hex byte (the source
maps every failure to the same error, so the failure cases need not be
distinguished). -/
def hexDecode : List Nat → Option (List Nat)
  | [] => some []
  | [_] => none
  | hi :: lo :: rest =>
    match hexDigitValue hi, hexDigitValue lo, hexDecode rest with
    | some h, some l, some tail => some ((16 * h + l) :: tail)
    | _, _, _ => none

/-- `get_feed_id_from_hex` from `src/price_update.rs`.  Matches on the
byte length of the input: 66 slices off the first two bytes (a panic,
`none`, if byte 2 is not a character boundary) and hex-decodes the rest;
64 hex-decodes the whole input; any other length fails with
`FeedIdMustBe32Bytes`.  Decode failures become `FeedIdNonHexCharacter`,
and `copy_from_slice` would panic if the decoded length were not 32. -/
def get_feed_id_from_hex (input : List Char) : Option (Except GetPriceError FeedId) :=
  if strLen input = 66 then
    match sliceFrom2 input with
    | none => none
    | some rest =>
      match hexDecode (strBytes rest) with
      | none => some (Except.error GetPriceError.FeedIdNonHexCharacter)
      | some bytes => if bytes.length = 32 then some (Except.ok bytes) else none
  else if strLen input = 64 then
    match hexDecode (strBytes input) with
    | none => some (Except.error GetPriceError.FeedIdNonHexCharacter)
    | some bytes => if bytes.length = 32 then some (Except.ok bytes) else none
  else
    some (Except.error GetPriceError.FeedIdMustBe32Bytes)

/-- A character is a hex digit exactly when it is a one-byte character
whose byte is a hex digit (hex digits are all ASCII). -/
def isHexChar (c : Char) : Bool := (hexDigitValue (charCode c)).isSome

/-- The lowercase hex digit for a value below 16 (spec-side definition,
used to state the round-trip property for feed-id encodings). -/
def hexDigitChar (d : Nat) : Char :=
  if d = 0 then '0' else if d = 1 then '1' else if d = 2 then '2' else if d = 3 then '3'
  else if d = 4 then '4' else if d = 5 then '5' else if d = 6 then '6' else if d = 7 then '7'
  else if d = 8 then '8' else if d = 9 then '9' else if d = 10 then 'a' else if d = 11 then 'b'
  else if d = 12 then 'c' else if d = 13 then 'd' else if d = 14 then 'e' else 'f'

/-- The two lowercase hex characters encoding one byte. -/
def byteToHexChars (b : Nat) : List Char := [hexDigitChar (b / 16), hexDigitChar (b % 16)]

/-- The lowercase hex encoding of a byte sequence (spec-side definition
for the round-trip property). -/
def bytesToHex (l : List Nat) : List Char := (l.map byteToHexChars).join

/-! ### Sample data used by counterexamples and witnesses -/

/-- A sample feed id. -/
def feedA : FeedId := List.replicate 32 7

/-- Another sample feed id, distinct from `feedA`. -/
def feedB : FeedId := List.replicate 32 9

/-- A sample message whose `publish_time` is near `i64::MAX`. -/
def msgA : PriceFeedMessage := ⟨feedA, 123, 5, -8, i64Max - 10, 0, 456, 9⟩

/-- A fully verified record carrying `msgA`. -/
def recordA : PriceUpdateV2 := ⟨List.replicate 32 1, VerificationLevel.Full, msgA, 42⟩

/-- A sample message with a small `publish_time`. -/
def msgB : PriceFeedMessage := ⟨feedB, -50, 2, -6, 1000, 900, 77, 3⟩

/-- A partially verified record carrying `msgB`. -/
def recordB : PriceUpdateV2 := ⟨List.replicate 32 2, VerificationLevel.Partial 5, msgB, 7⟩

/-! ### Helper lemmas -/

lemma get_price_unchecked_error_eq (self : PriceUpdateV2) (feed_id : FeedId)
    (e : GetPriceError) (h : self.get_price_unchecked feed_id = Except.error e) :
    e = GetPriceError.MismatchedFeedId := by
  unfold PriceUpdateV2.get_price_unchecked at h
  split at h <;> simp_all

lemma u64TryIntoI64_of_le (u : Nat) (h : u ≤ 2 ^ 63 - 1) :
    u64TryIntoI64 u = some (u : Int) := by
  unfold u64TryIntoI64 i64Max
  rw [if_pos (by omega)]


instance {ε α : Type} [DecidableEq ε] [DecidableEq α] : DecidableEq (Except ε α) := fun x y =>
  match x, y with
  | Except.error a, Except.error b =>
    if h : a = b then isTrue (by rw [h]) else isFalse (by simp [h])
  | Except.ok a, Except.ok b =>
    if h : a = b then isTrue (by rw [h]) else isFalse (by simp [h])
  | Except.error _, Except.ok _ => isFalse (by simp)
  | Except.ok _, Except.error _ => isFalse (by simp)

lemma custom_level_eval (self : PriceUpdateV2) (clock : Clock) (maximum_age : Nat)
    (feed_id : FeedId) (required_level : VerificationLevel)
    (htrust : self.verification_level.gte required_level = true)
    (hfeed : self.price_message.feed_id = feed_id)
    (hage : maximum_age ≤ 2 ^ 63 - 1) :
    self.get_price_no_older_than_with_custom_verification_level clock maximum_age feed_id
      required_level =
      if i64SaturatingAdd self.price_message.publish_time (maximum_age : Int) ≥
          clock.unix_timestamp then
        some (Except.ok ⟨self.price_message.price, self.price_message.conf,
          self.price_message.exponent, self.price_message.publish_time⟩)
      else some (Except.error GetPriceError.PriceTooOld) := by
  unfold PriceUpdateV2.get_price_no_older_than_with_custom_verification_level
  unfold PriceUpdateV2.get_price_unchecked
  simp [htrust, hfeed, u64TryIntoI64_of_le _ hage]

/-! ### Claim theorems (numeric entry points) -/

/-- C1 (counterexample): the claim asserts that calling the custom-level
accessor with `maximum_age = u64::MAX` on a record whose `publish_time`
is near `i64::MAX`, with trust and identity checks passing, neither
panics nor returns `PriceTooOld`.  In fact the code computes
`maximum_age.try_into().unwrap()` before any addition, and the `u64 ->
i64` conversion of `u64::MAX` fails, so the `.unwrap()` panics (result
`none` in this model) instead of returning the price. -/
theorem c1_counterexample :
    recordA.verification_level.gte VerificationLevel.Full = true ∧
    recordA.price_message.feed_id = feedA ∧
    recordA.price_message.publish_time = i64Max - 10 ∧
    recordA.get_price_no_older_than_with_custom_verification_level ⟨0⟩ u64Max feedA
      VerificationLevel.Full = none := by
  decide

/-- C1 (amended): for the largest `maximum_age` that survives the
`u64 -> i64` conversion, namely `i64::MAX`, the accessor does not panic
and does not return `PriceTooOld` on a record with non-negative
`publish_time` (in particular one near `i64::MAX`): the saturating
addition clamps at `i64::MAX`, which is at least any representable
current time, so a huge convertible `maximum_age` behaves as "never
stale".  (With `maximum_age = u64::MAX` itself the conversion panics,
see the counterexample.) -/
theorem c1_amended_huge_age_saturates (self : PriceUpdateV2) (clock : Clock)
    (feed_id : FeedId) (required_level : VerificationLevel)
    (htrust : self.verification_level.gte required_level = true)
    (hfeed : self.price_message.feed_id = feed_id)
    (hpt : 0 ≤ self.price_message.publish_time)
    (hclock : clock.unix_timestamp ≤ i64Max) :
    self.get_price_no_older_than_with_custom_verification_level clock (2 ^ 63 - 1) feed_id
      required_level =
      some (Except.ok ⟨self.price_message.price, self.price_message.conf,
        self.price_message.exponent, self.price_message.publish_time⟩) := by
  rw [custom_level_eval self clock (2 ^ 63 - 1) feed_id required_level htrust hfeed
    (le_refl _)]
  rw [if_pos]
  unfold i64SaturatingAdd i64Min i64Max
  unfold i64Max at hclock
  have hcast : (((2 : Nat) ^ 63 - 1 : Nat) : Int) = 2 ^ 63 - 1 := by omega
  rw [hcast]
  split
  · omega
  · split <;> omega

/-- C1 (witness for the amended theorem at a concrete input). -/
theorem c1_witness :
    recordA.get_price_no_older_than_with_custom_verification_level ⟨50⟩ (2 ^ 63 - 1) feedA
      VerificationLevel.Full =
      some (Except.ok ⟨recordA.price_message.price, recordA.price_message.conf,
        recordA.price_message.exponent, recordA.price_message.publish_time⟩) :=
  c1_amended_huge_age_saturates recordA ⟨50⟩ feedA VerificationLevel.Full
    (by decide) (by decide) (by decide) (by decide)

/-- C2: the custom-level accessor checks trust before feed identity: on
a record whose verification level does not satisfy `gte(required_level)`
and whose feed id also differs from the requested one, the result is
`InsufficientVerificationLevel`, never `MismatchedFeedId`. -/
theorem c2_trust_before_identity (self : PriceUpdateV2) (clock : Clock)
    (maximum_age : Nat) (feed_id : FeedId) (required_level : VerificationLevel)
    (htrust : self.verification_level.gte required_level = false)
    (hfeed : self.price_message.feed_id ≠ feed_id) :
    self.get_price_no_older_than_with_custom_verification_level clock maximum_age feed_id
      required_level = some (Except.error GetPriceError.InsufficientVerificationLevel) := by
  unfold PriceUpdateV2.get_price_no_older_than_with_custom_verification_level
  simp [htrust]

/-- C2 (witness): a `Partial(5)` record for feed B, queried for feed A at
required level `Full`, reports `InsufficientVerificationLevel`. -/
theorem c2_witness :
    recordB.get_price_no_older_than_with_custom_verification_level ⟨1000⟩ 30 feedA
      VerificationLevel.Full = some (Except.error GetPriceError.InsufficientVerificationLevel) :=
  c2_trust_before_identity recordB ⟨1000⟩ 30 feedA VerificationLevel.Full
    (by decide) (by decide)

/-- C4 (counterexample): the claim asserts that once trust and identity
pass, the call fails with `PriceTooOld` iff the saturating sum
`publish_time + maximum_age` is below `current_time`, and otherwise
returns the price — quantifying over every `maximum_age : u64`.  At
`maximum_age = u64::MAX` the saturating sum is `i64::MAX ≥ current_time`,
so the claim demands the price; the code instead panics in
`maximum_age.try_into().unwrap()` (result `none`). -/
theorem c4_counterexample :
    recordB.verification_level.gte (VerificationLevel.Partial 3) = true ∧
    recordB.price_message.feed_id = feedB ∧
    (⟨1200⟩ : Clock).unix_timestamp ≤
      i64SaturatingAdd recordB.price_message.publish_time (u64Max : Int) ∧
    recordB.get_price_no_older_than_with_custom_verification_level ⟨1200⟩ u64Max feedB
      (VerificationLevel.Partial 3) = none := by
  decide

/-- C4 (amended): once trust and identity pass and `maximum_age` fits in
`i64` (at most `i64::MAX`), the call fails with `PriceTooOld` iff the
saturating sum `publish_time + maximum_age` is below `current_time`, and
otherwise returns the price unchanged; for `maximum_age > i64::MAX` the
conversion `.unwrap()` panics instead (see the counterexample). -/
theorem c4_amended_staleness_iff (self : PriceUpdateV2) (clock : Clock) (maximum_age : Nat)
    (feed_id : FeedId) (required_level : VerificationLevel)
    (hage : maximum_age ≤ 2 ^ 63 - 1)
    (htrust : self.verification_level.gte required_level = true)
    (hfeed : self.price_message.feed_id = feed_id) :
    (self.get_price_no_older_than_with_custom_verification_level clock maximum_age feed_id
        required_level = some (Except.error GetPriceError.PriceTooOld) ↔
      i64SaturatingAdd self.price_message.publish_time (maximum_age : Int) <
        clock.unix_timestamp) ∧
    (clock.unix_timestamp ≤
        i64SaturatingAdd self.price_message.publish_time (maximum_age : Int) →
      self.get_price_no_older_than_with_custom_verification_level clock maximum_age feed_id
        required_level =
        some (Except.ok ⟨self.price_message.price, self.price_message.conf,
          self.price_message.exponent, self.price_message.publish_time⟩)) := by
  rw [custom_level_eval self clock maximum_age feed_id required_level htrust hfeed hage]
  by_cases hc : i64SaturatingAdd self.price_message.publish_time (maximum_age : Int) ≥
      clock.unix_timestamp
  · rw [if_pos hc]
    constructor
    · constructor
      · intro h
        simp at h
      · intro h
        omega
    · intro _
      rfl
  · rw [if_neg hc]
    constructor
    · constructor
      · intro _
        omega
      · intro _
        rfl
    · intro h
      omega

/-- C4 (witness): `publish_time = 1000`, `maximum_age = 30`,
`current_time = 1040` gives `PriceTooOld`. -/
theorem c4_witness :
    recordB.get_price_no_older_than_with_custom_verification_level ⟨1040⟩ 30 feedB
      (VerificationLevel.Partial 5) = some (Except.error GetPriceError.PriceTooOld) :=
  (c4_amended_staleness_iff recordB ⟨1040⟩ 30 feedB (VerificationLevel.Partial 5)
    (by decide) (by decide) (by decide)).1.mpr (by decide)

/-- C5: `VerificationLevel.gte` implements the spec's priority rules:
`Full` dominates everything, `Partial` never reaches `Full`, two
`Partial`s compare by `num_signatures`, and `gte` is reflexive. -/
theorem c5_gte_rules :
    (∀ other, VerificationLevel.Full.gte other = true) ∧
    (∀ n, (VerificationLevel.Partial n).gte VerificationLevel.Full = false) ∧
    (∀ n1 n2, ((VerificationLevel.Partial n1).gte (VerificationLevel.Partial n2) = true) ↔
      n1 ≥ n2) ∧
    (∀ v : VerificationLevel, v.gte v = true) := by
  constructor
  · intro other
    rfl
  constructor
  · intro n
    rfl
  constructor
  · intro n1 n2
    simp [VerificationLevel.gte]
  · intro v
    cases v with
    | Partial n => simp [VerificationLevel.gte]
    | Full => rfl

/-- C6: `get_price_unchecked` fails with `MismatchedFeedId` exactly when
the stored feed id differs from the requested one, ignores the
verification level entirely (no trust check; there is no clock argument,
so no staleness check), and on success returns the four fields of
`price_message` unchanged. -/
theorem c6_get_price_unchecked_spec (self : PriceUpdateV2) (feed_id : FeedId) :
    (self.get_price_unchecked feed_id = Except.error GetPriceError.MismatchedFeedId ↔
      self.price_message.feed_id ≠ feed_id) ∧
    (∀ v : VerificationLevel,
      (PriceUpdateV2.mk self.write_authority v self.price_message
        self.posted_slot).get_price_unchecked feed_id = self.get_price_unchecked feed_id) ∧
    (self.price_message.feed_id = feed_id →
      self.get_price_unchecked feed_id =
        Except.ok ⟨self.price_message.price, self.price_message.conf,
          self.price_message.exponent, self.price_message.publish_time⟩) := by
  unfold PriceUpdateV2.get_price_unchecked
  by_cases h : self.price_message.feed_id = feed_id <;> simp [h]

/-- C6 (witness): on a matching feed id the stored fields come back
unchanged. -/
theorem c6_witness :
    recordA.get_price_unchecked feedA =
      Except.ok ⟨recordA.price_message.price, recordA.price_message.conf,
        recordA.price_message.exponent, recordA.price_message.publish_time⟩ :=
  (c6_get_price_unchecked_spec recordA feedA).2.2 (by decide)

/-- C7: `get_price_no_older_than` returns exactly the result of
`get_price_no_older_than_with_custom_verification_level` at
`required_level = Full`, for every record, clock, maximum age and feed
id. -/
theorem c7_wrapper_full_level (self : PriceUpdateV2) (clock : Clock) (maximum_age : Nat)
    (feed_id : FeedId) :
    self.get_price_no_older_than clock maximum_age feed_id =
      self.get_price_no_older_than_with_custom_verification_level clock maximum_age feed_id
        VerificationLevel.Full := rfl

/-- C10: whenever `maximum_age` is at most `i64::MAX` (as an unsigned
value), the custom-level accessor is total: the `u64 -> i64` conversion
succeeds, no panic is reachable, and the result is either a price or one
of `InsufficientVerificationLevel`, `MismatchedFeedId`, `PriceTooOld`. -/
theorem c10_no_panic_when_age_fits (self : PriceUpdateV2) (clock : Clock)
    (maximum_age : Nat) (feed_id : FeedId) (required_level : VerificationLevel)
    (hage : maximum_age ≤ 2 ^ 63 - 1) :
    ∃ r : Except GetPriceError Price,
      self.get_price_no_older_than_with_custom_verification_level clock maximum_age feed_id
        required_level = some r ∧
      ∀ e, r = Except.error e →
        e = GetPriceError.InsufficientVerificationLevel ∨
          e = GetPriceError.MismatchedFeedId ∨ e = GetPriceError.PriceTooOld := by
  by_cases htrust : self.verification_level.gte required_level = true
  · by_cases hfeed : self.price_message.feed_id = feed_id
    · rw [custom_level_eval self clock maximum_age feed_id required_level htrust hfeed hage]
      by_cases hc : i64SaturatingAdd self.price_message.publish_time (maximum_age : Int) ≥
          clock.unix_timestamp
      · rw [if_pos hc]
        exact ⟨_, rfl, fun e' he' => by simp at he'⟩
      · rw [if_neg hc]
        refine ⟨_, rfl, fun e' he' => ?_⟩
        simp at he'
        subst he'
        right
        right
        rfl
    · refine ⟨Except.error GetPriceError.MismatchedFeedId, ?_, fun e' he' => ?_⟩
      · unfold PriceUpdateV2.get_price_no_older_than_with_custom_verification_level
        unfold PriceUpdateV2.get_price_unchecked
        simp [htrust, hfeed]
      · simp at he'
        subst he'
        right
        left
        rfl
  · refine ⟨Except.error GetPriceError.InsufficientVerificationLevel, ?_, fun e' he' => ?_⟩
    · unfold PriceUpdateV2.get_price_no_older_than_with_custom_verification_level
      simp [htrust]
    · simp at he'
      subst he'
      left
      rfl

/-- C10 (witness). -/
theorem c10_witness :
    ∃ r : Except GetPriceError Price,
      recordA.get_price_no_older_than_with_custom_verification_level ⟨0⟩ 30 feedA
        VerificationLevel.Full = some r ∧
      ∀ e, r = Except.error e →
        e = GetPriceError.InsufficientVerificationLevel ∨
          e = GetPriceError.MismatchedFeedId ∨ e = GetPriceError.PriceTooOld :=
  c10_no_panic_when_age_fits recordA ⟨0⟩ 30 feedA VerificationLevel.Full (by decide)

/-! ### Helper lemmas for the string model and hex decoding -/

lemma strBytes_cons (c : Char) (s : List Char) :
    strBytes (c :: s) = charBytes c ++ strBytes s := by
  simp [strBytes]

lemma strBytes_append (p q : List Char) :
    strBytes (p ++ q) = strBytes p ++ strBytes q := by
  simp [strBytes]

lemma strLen_append (p q : List Char) : strLen (p ++ q) = strLen p + strLen q := by
  simp [strLen, strBytes_append]

lemma charLen_pos (c : Char) : 1 ≤ charLen c := by
  unfold charLen charBytes
  split
  · simp
  · split
    · simp
    · split <;> simp

lemma hexDigitValue_none_of_ge {b : Nat} (h : 103 ≤ b) : hexDigitValue b = none := by
  unfold hexDigitValue
  rw [if_neg (by omega), if_neg (by omega), if_neg (by omega)]

lemma hexDigitValue_isSome_lt {b : Nat} (h : (hexDigitValue b).isSome = true) : b < 128 := by
  by_contra hge
  push_neg at hge
  rw [hexDigitValue_none_of_ge (by omega)] at h
  simp at h

lemma isHexChar_charBytes {c : Char} (h : isHexChar c = true) : charBytes c = [charCode c] := by
  unfold isHexChar at h
  have hlt : charCode c < 128 := hexDigitValue_isSome_lt h
  unfold charBytes
  rw [if_pos hlt]

lemma charBytes_bad_of_not_hex {c : Char} (h : isHexChar c = false) :
    ∃ b ∈ charBytes c, hexDigitValue b = none := by
  unfold isHexChar at h
  by_cases hlt : charCode c < 128
  · refine ⟨charCode c, ?_, ?_⟩
    · unfold charBytes
      rw [if_pos hlt]
      simp
    · cases hv : hexDigitValue (charCode c) with
      | none => rfl
      | some d => rw [hv] at h; simp at h
  · unfold charBytes
    rw [if_neg hlt]
    split
    · exact ⟨0xC0 + charCode c / 0x40, by simp, hexDigitValue_none_of_ge (by omega)⟩
    · split
      · exact ⟨0xE0 + charCode c / 0x1000, by simp, hexDigitValue_none_of_ge (by omega)⟩
      · exact ⟨0xF0 + charCode c / 0x40000, by simp, hexDigitValue_none_of_ge (by omega)⟩

lemma mem_strBytes : ∀ {s : List Char} {c : Char} {b : Nat},
    c ∈ s → b ∈ charBytes c → b ∈ strBytes s := by
  intro s
  induction s with
  | nil =>
    intro c b hc _
    cases hc
  | cons hd tl ih =>
    intro c b hc hb
    rw [strBytes_cons, List.mem_append]
    rcases List.mem_cons.mp hc with rfl | h
    · exact Or.inl hb
    · exact Or.inr (ih h hb)

lemma strBytes_hex_all : ∀ (s : List Char), (∀ c ∈ s, isHexChar c = true) →
    ∀ b ∈ strBytes s, (hexDigitValue b).isSome = true := by
  intro s
  induction s with
  | nil =>
    intro _ b hb
    simp [strBytes] at hb
  | cons hd tl ih =>
    intro h b hb
    rw [strBytes_cons, List.mem_append] at hb
    rcases hb with hb | hb
    · have hh := h hd (List.mem_cons_self _ _)
      rw [isHexChar_charBytes hh] at hb
      simp at hb
      subst hb
      unfold isHexChar at hh
      exact hh
    · exact ih (fun c hc => h c (List.mem_cons_of_mem _ hc)) b hb

lemma sliceFrom2_append (p rest : List Char) (hp : (strBytes p).length = 2) :
    sliceFrom2 (p ++ rest) = some rest := by
  match p with
  | [] => simp [strBytes] at hp
  | [c] =>
    have hc2 : charLen c = 2 := by
      unfold charLen
      simpa [strBytes] using hp
    show sliceFrom2 (c :: rest) = some rest
    simp only [sliceFrom2]
    rw [if_neg (by omega), if_pos hc2]
  | c1 :: c2 :: t =>
    rw [strBytes_cons, strBytes_cons] at hp
    simp only [List.length_append] at hp
    have h1 := charLen_pos c1
    have h2 := charLen_pos c2
    unfold charLen at h1 h2
    have hc1 : (charBytes c1).length = 1 := by omega
    have hc2 : (charBytes c2).length = 1 := by omega
    have ht0 : (strBytes t).length = 0 := by omega
    cases t with
    | nil =>
      show sliceFrom2 (c1 :: c2 :: rest) = some rest
      simp only [sliceFrom2]
      rw [if_pos (show charLen c1 = 1 from hc1)]
      rw [if_pos (show charLen c2 = 1 from hc2)]
    | cons c3 t' =>
      exfalso
      rw [strBytes_cons] at ht0
      simp only [List.length_append] at ht0
      have h3 := charLen_pos c3
      unfold charLen at h3
      omega

lemma hexDecode_length : ∀ (bs r : List Nat), hexDecode bs = some r → bs.length = 2 * r.length
  | [], r, h => by
    simp [hexDecode] at h
    subst h
    rfl
  | [b], r, h => by simp [hexDecode] at h
  | hi :: lo :: rest, r, h => by
    rcases hhi : hexDigitValue hi with _ | dh <;> rcases hlo : hexDigitValue lo with _ | dl <;>
      rcases hr : hexDecode rest with _ | t <;> simp [hexDecode, hhi, hlo, hr] at h
    have ih := hexDecode_length rest t hr
    subst h
    simp [List.length_cons]
    omega

lemma hexDecode_isSome : ∀ (bs : List Nat), bs.length % 2 = 0 →
    (∀ b ∈ bs, (hexDigitValue b).isSome = true) → ∃ r, hexDecode bs = some r
  | [], _, _ => ⟨[], rfl⟩
  | [b], h, _ => by simp at h
  | hi :: lo :: rest, h, hall => by
    obtain ⟨dh, hdh⟩ := Option.isSome_iff_exists.mp (hall hi (by simp))
    obtain ⟨dl, hdl⟩ := Option.isSome_iff_exists.mp (hall lo (by simp))
    have hr2 : rest.length % 2 = 0 := by
      simp only [List.length_cons] at h
      omega
    obtain ⟨t, ht⟩ := hexDecode_isSome rest hr2 (fun b hb => hall b (by simp [hb]))
    exact ⟨(16 * dh + dl) :: t, by simp [hexDecode, hdh, hdl, ht]⟩

lemma hexDecode_none_of_mem : ∀ (bs : List Nat) (b : Nat),
    b ∈ bs → hexDigitValue b = none → hexDecode bs = none
  | [], b, hb, _ => absurd hb (List.not_mem_nil b)
  | [_], _, _, _ => rfl
  | hi :: lo :: rest, b, hb, hbad => by
    rcases List.mem_cons.mp hb with rfl | hb'
    · simp [hexDecode, hbad]
    · rcases List.mem_cons.mp hb' with rfl | hb''
      · rcases hhi : hexDigitValue hi with _ | dh <;> simp [hexDecode, hhi, hbad]
      · have ih := hexDecode_none_of_mem rest b hb'' hbad
        rcases hhi : hexDigitValue hi with _ | dh <;>
          rcases hlo : hexDigitValue lo with _ | dl <;> simp [hexDecode, hhi, hlo, ih]

lemma hexDigitChar_spec (d : Nat) (h : d < 16) :
    charBytes (hexDigitChar d) = [charCode (hexDigitChar d)] ∧
    hexDigitValue (charCode (hexDigitChar d)) = some d := by
  interval_cases d <;> exact ⟨by decide, by decide⟩

lemma bytesToHex_decode : ∀ (l : List Nat), (∀ b ∈ l, b < 256) →
    hexDecode (strBytes (bytesToHex l)) = some l ∧
      (strBytes (bytesToHex l)).length = 2 * l.length
  | [], _ => ⟨rfl, rfl⟩
  | b :: t, h => by
    have hb : b < 256 := h b (List.mem_cons_self _ _)
    obtain ⟨ihdec, ihlen⟩ := bytesToHex_decode t (fun x hx => h x (List.mem_cons_of_mem _ hx))
    obtain ⟨hhi1, hhi2⟩ := hexDigitChar_spec (b / 16) (by omega)
    obtain ⟨hlo1, hlo2⟩ := hexDigitChar_spec (b % 16) (by omega)
    have hexp : bytesToHex (b :: t) =
        hexDigitChar (b / 16) :: hexDigitChar (b % 16) :: bytesToHex t := by
      simp [bytesToHex, byteToHexChars]
    rw [hexp, strBytes_cons, strBytes_cons, hhi1, hlo1]
    simp only [List.singleton_append]
    constructor
    · simp only [hexDecode, hhi2, hlo2, ihdec]
      have : 16 * (b / 16) + b % 16 = b := by omega
      rw [this]
    · simp only [List.length_cons, ihlen]
      omega

/-! ### Sample inputs for the parsing claims -/

/-- A 66-character ASCII input that does not start with `0x` but whose
last 64 characters are hex. -/
def zzInput : List Char := 'z' :: 'z' :: List.replicate 64 '0'

/-- A 64-character input of byte length 66 whose first character is
three bytes long (byte offset 2 falls inside it). -/
def wideInputA : List Char := '€' :: List.replicate 63 'b'

/-- Same shape as `wideInputA`, used by a different claim. -/
def wideInputB : List Char := '€' :: List.replicate 63 'a'

/-- A 66-character input of byte length 67 (first character two bytes
long) whose last 64 characters are hex. -/
def wideInputC : List Char := 'é' :: List.replicate 65 'a'

/-! ### Claim theorems (feed id parsing) -/

/-- C3 (counterexample): the claim asserts `get_feed_id_from_hex`
succeeds exactly on `0x` + 64 hex characters or bare 64 hex characters,
and that accepted-length inputs with a non-hex character fail with
`FeedIdNonHexCharacter`.  Both parts fail: (1) a length-66 input starting
with `zz` instead of `0x` is accepted, because the code strips the first
two bytes without inspecting them; (2) a byte-length-66 input whose first
character is three bytes long contains a non-hex character yet panics in
the byte slice `&input[2..]` (byte 2 is not a character boundary; result
`none` in this model) instead of returning `FeedIdNonHexCharacter`. -/
theorem c3_counterexample :
    (zzInput.take 2 ≠ ['0', 'x'] ∧ strLen zzInput = 66 ∧
      get_feed_id_from_hex zzInput = some (Except.ok (List.replicate 32 0))) ∧
    (strLen wideInputA = 66 ∧ (∃ c ∈ wideInputA, isHexChar c = false) ∧
      get_feed_id_from_hex wideInputA = none) := by
  decide

/-- C3 (amended): `get_feed_id_from_hex` classifies inputs by UTF-8 byte
length.  A length that is neither 64 nor 66 fails with
`FeedIdMustBe32Bytes`.  At length 64 the input is accepted iff all its
characters are hex, failing with `FeedIdNonHexCharacter` otherwise.  At
length 66 the first two bytes are stripped unconditionally (they need
not be `0x`, and must form whole characters or the byte slice panics,
see the counterexample): the remainder is accepted iff all its
characters are hex, failing with `FeedIdNonHexCharacter` otherwise. -/
theorem c3_amended (input : List Char) :
    (strLen input ≠ 64 → strLen input ≠ 66 →
      get_feed_id_from_hex input = some (Except.error GetPriceError.FeedIdMustBe32Bytes)) ∧
    (strLen input = 64 →
      ((∀ c ∈ input, isHexChar c = true) →
        ∃ bs, get_feed_id_from_hex input = some (Except.ok bs)) ∧
      ((∃ c ∈ input, isHexChar c = false) →
        get_feed_id_from_hex input = some (Except.error GetPriceError.FeedIdNonHexCharacter))) ∧
    (∀ p rest, input = p ++ rest → (strBytes p).length = 2 → (strBytes rest).length = 64 →
      ((∀ c ∈ rest, isHexChar c = true) →
        ∃ bs, get_feed_id_from_hex input = some (Except.ok bs)) ∧
      ((∃ c ∈ rest, isHexChar c = false) →
        get_feed_id_from_hex input =
          some (Except.error GetPriceError.FeedIdNonHexCharacter))) := by
  refine ⟨?_, ?_, ?_⟩
  · intro h64 h66
    unfold get_feed_id_from_hex
    rw [if_neg h66, if_neg h64]
  · intro h64
    constructor
    · intro hhex
      obtain ⟨bs, hbs⟩ := hexDecode_isSome (strBytes input)
        (by unfold strLen at h64; omega) (strBytes_hex_all input hhex)
      have hlen32 : bs.length = 32 := by
        have := hexDecode_length _ _ hbs
        unfold strLen at h64
        omega
      refine ⟨bs, ?_⟩
      unfold get_feed_id_from_hex
      rw [if_neg (by omega), if_pos h64]
      simp only [hbs]
      rw [if_pos hlen32]
    · rintro ⟨c, hc, hbad⟩
      obtain ⟨b, hbmem, hbnone⟩ := charBytes_bad_of_not_hex hbad
      have hnone := hexDecode_none_of_mem (strBytes input) b (mem_strBytes hc hbmem) hbnone
      unfold get_feed_id_from_hex
      rw [if_neg (by omega), if_pos h64]
      simp only [hnone]
  · rintro p rest rfl hp hrest
    have h66 : strLen (p ++ rest) = 66 := by
      rw [strLen_append]
      unfold strLen
      omega
    constructor
    · intro hhex
      obtain ⟨bs, hbs⟩ := hexDecode_isSome (strBytes rest) (by omega)
        (strBytes_hex_all rest hhex)
      have hlen32 : bs.length = 32 := by
        have := hexDecode_length _ _ hbs
        omega
      refine ⟨bs, ?_⟩
      unfold get_feed_id_from_hex
      rw [if_pos h66, sliceFrom2_append p rest hp]
      simp only [hbs]
      rw [if_pos hlen32]
    · rintro ⟨c, hc, hbad⟩
      obtain ⟨b, hbmem, hbnone⟩ := charBytes_bad_of_not_hex hbad
      have hnone := hexDecode_none_of_mem (strBytes rest) b (mem_strBytes hc hbmem) hbnone
      unfold get_feed_id_from_hex
      rw [if_pos h66, sliceFrom2_append p rest hp]
      simp only [hnone]

/-- C3 (witness for the amended theorem): a length-10 input fails with
`FeedIdMustBe32Bytes`. -/
theorem c3_witness :
    get_feed_id_from_hex (List.replicate 10 'a') =
      some (Except.error GetPriceError.FeedIdMustBe32Bytes) :=
  (c3_amended (List.replicate 10 'a')).1 (by decide) (by decide)

/-- C8: round-trip — for every 32-byte value, `get_feed_id_from_hex`
applied to its lowercase 64-character hex encoding, bare or with a `0x`
prefix, succeeds and returns the original bytes unchanged (no byte-order
transform). -/
theorem c8_roundtrip (l : List Nat) (hlen : l.length = 32) (hbytes : ∀ b ∈ l, b < 256) :
    get_feed_id_from_hex (bytesToHex l) = some (Except.ok l) ∧
    get_feed_id_from_hex ('0' :: 'x' :: bytesToHex l) = some (Except.ok l) := by
  obtain ⟨hdec, hblen⟩ := bytesToHex_decode l hbytes
  have h64 : strLen (bytesToHex l) = 64 := by
    unfold strLen
    omega
  constructor
  · unfold get_feed_id_from_hex
    rw [if_neg (by omega), if_pos h64]
    simp only [hdec]
    rw [if_pos hlen]
  · have hpre : ('0' :: 'x' :: bytesToHex l) = ['0', 'x'] ++ bytesToHex l := rfl
    rw [hpre]
    have h2 : strLen ['0', 'x'] = 2 := by decide
    have h66 : strLen (['0', 'x'] ++ bytesToHex l) = 66 := by
      rw [strLen_append, h2, h64]
    unfold get_feed_id_from_hex
    rw [if_pos h66, sliceFrom2_append ['0', 'x'] (bytesToHex l) (by decide)]
    simp only [hdec]
    rw [if_pos hlen]

/-- C8 (witness): the all-`0xAB` feed id round-trips through its bare
hex encoding. -/
theorem c8_witness :
    get_feed_id_from_hex (bytesToHex (List.replicate 32 171)) =
      some (Except.ok (List.replicate 32 171)) :=
  (c8_roundtrip (List.replicate 32 171) (by decide) (by decide)).1

/-- C9 (counterexample): the claim asserts that on every 66-character
input the first two characters are stripped unconditionally and the
remaining 64 hex-decoded.  Reading "66-character" as byte length 66
(what `input.len()` measures), `wideInputB` has byte length 66 yet the
strip panics (byte 2 falls inside its three-byte first character; result
`none`), instead of hex-decoding the remaining 64 bytes.  Reading it as
66 characters, `wideInputC` has 66 characters whose last 64 are hex yet
is rejected with `FeedIdMustBe32Bytes` (its byte length is 67), not
accepted. -/
theorem c9_counterexample :
    (strLen wideInputB = 66 ∧ get_feed_id_from_hex wideInputB = none) ∧
    (wideInputC.length = 66 ∧ (∀ c ∈ wideInputC.drop 2, isHexChar c = true) ∧
      get_feed_id_from_hex wideInputC =
        some (Except.error GetPriceError.FeedIdMustBe32Bytes)) := by
  decide

/-- C9 (amended): for every input of byte length 66 whose first two
bytes form whole characters (two one-byte characters or one two-byte
character — otherwise the byte slice panics, see the counterexample),
`get_feed_id_from_hex` never inspects the value of those two bytes: the
result equals that for `0x` followed by the same remainder, and whenever
the remaining 64 bytes are all hex characters the input is accepted with
exactly their decoding. -/
theorem c9_amended (p rest : List Char) (hp : (strBytes p).length = 2)
    (hrest : (strBytes rest).length = 64) :
    get_feed_id_from_hex (p ++ rest) = get_feed_id_from_hex (['0', 'x'] ++ rest) ∧
    ((∀ c ∈ rest, isHexChar c = true) →
      ∃ bs, hexDecode (strBytes rest) = some bs ∧
        get_feed_id_from_hex (p ++ rest) = some (Except.ok bs)) := by
  have h66p : strLen (p ++ rest) = 66 := by
    rw [strLen_append]
    unfold strLen
    omega
  have h66z : strLen (['0', 'x'] ++ rest) = 66 := by
    rw [strLen_append]
    have h2 : strLen ['0', 'x'] = 2 := by decide
    unfold strLen at h2 ⊢
    omega
  constructor
  · unfold get_feed_id_from_hex
    rw [if_pos h66p, if_pos h66z, sliceFrom2_append p rest hp,
      sliceFrom2_append ['0', 'x'] rest (by decide)]
  · intro hhex
    obtain ⟨bs, hbs⟩ := hexDecode_isSome (strBytes rest) (by omega)
      (strBytes_hex_all rest hhex)
    have hlen32 : bs.length = 32 := by
      have := hexDecode_length _ _ hbs
      omega
    refine ⟨bs, hbs, ?_⟩
    unfold get_feed_id_from_hex
    rw [if_pos h66p, sliceFrom2_append p rest hp]
    simp only [hbs]
    rw [if_pos hlen32]

/-- C9 (witness for the amended theorem): a `zz` prefix behaves exactly
like `0x` and the all-zero remainder decodes to 32 zero bytes. -/
theorem c9_witness :
    ∃ bs, hexDecode (strBytes (List.replicate 64 '0')) = some bs ∧
      get_feed_id_from_hex (['z', 'z'] ++ List.replicate 64 '0') = some (Except.ok bs) :=
  (c9_amended ['z', 'z'] (List.replicate 64 '0') (by decide) (by decide)).2 (by decide)
